import Mathlib

/-
Verification development for the orx-funvec crate: a uniform indexed-access
abstraction over vector-like sources.  Definitions are shallow embeddings of
the Rust source files; theorems settle the specification claims about them.
Rust references are modelled by the value they point to, usize by Nat, and
hash/tree/insertion-ordered maps by association lists whose key uniqueness
(an invariant Rust maintains) is carried as a hypothesis where needed.
-/

namespace OrxFunvec

/-- Canonical coordinate type of src/src/index.rs: the fixed-length array
of non-negative integers, written as a function from positions. -/
abbrev Index (d : Nat) : Type := Fin d → Nat

/-- Rust Option::copied used by the value adapters: duplicates the value
behind the reference; on the model every value copies to itself. -/
def copied {T : Type} (o : Option T) : Option T :=
  o.map fun x => x

/-- IntoIndex for usize at dimension 1 (src/src/d1/into_index.rs): builds
the one-element array. -/
def intoIndexUsize (n : Nat) : Index 1 := ![n]

/-- FromIndex for usize at dimension 1: reads position 0. -/
def fromIndexUsize (a : Index 1) : Nat := a 0

/-- IntoIndex for the pair shape at dimension 2 (src/src/d2/into_index.rs). -/
def intoIndexPair (p : Nat × Nat) : Index 2 := ![p.1, p.2]

/-- FromIndex for the pair shape at dimension 2. -/
def fromIndexPair (a : Index 2) : Nat × Nat := (a 0, a 1)

/-- IntoIndex for the triple shape at dimension 3 (src/src/d3/into_index.rs). -/
def intoIndexTriple (p : Nat × Nat × Nat) : Index 3 := ![p.1, p.2.1, p.2.2]

/-- FromIndex for the triple shape at dimension 3. -/
def fromIndexTriple (a : Index 3) : Nat × Nat × Nat := (a 0, a 1, a 2)

/-- IntoIndex for the quadruple shape at dimension 4 (src/src/d4/into_index.rs). -/
def intoIndexQuad (p : Nat × Nat × Nat × Nat) : Index 4 :=
  ![p.1, p.2.1, p.2.2.1, p.2.2.2]

/-- FromIndex for the quadruple shape at dimension 4. -/
def fromIndexQuad (a : Index 4) : Nat × Nat × Nat × Nat := (a 0, a 1, a 2, a 3)

/-- IntoIndex for the fixed array shape at any dimension (src/src/index.rs):
the identity conversion. -/
def intoIndexArray {d : Nat} (a : Index d) : Index d := a

/-- FromIndex for the fixed array shape at any dimension: the identity. -/
def fromIndexArray {d : Nat} (a : Index d) : Index d := a

/-- Model of std HashMap: an association list of key-value entries. -/
structure HashMap (K : Type) (T : Type) where
  entries : List (K × T)

/-- HashMap lookup: the value of the first entry whose key matches. -/
def HashMap.get {K T : Type} [DecidableEq K] (m : HashMap K T) (k : K) : Option T :=
  (m.entries.find? fun e => decide (e.1 = k)).map Prod.snd

/-- Model of std BTreeMap: an association list of key-value entries. -/
structure BTreeMap (K : Type) (T : Type) where
  entries : List (K × T)

/-- BTreeMap lookup: the value of the first entry whose key matches. -/
def BTreeMap.get {K T : Type} [DecidableEq K] (m : BTreeMap K T) (k : K) : Option T :=
  (m.entries.find? fun e => decide (e.1 = k)).map Prod.snd

/-- Model of indexmap IndexMap: an association list of key-value entries in
insertion order. -/
structure IndexMap (K : Type) (T : Type) where
  entries : List (K × T)

/-- IndexMap lookup: the value of the first entry whose key matches. -/
def IndexMap.get {K T : Type} [DecidableEq K] (m : IndexMap K T) (k : K) : Option T :=
  (m.entries.find? fun e => decide (e.1 = k)).map Prod.snd

/-- FunVec at dimension 1 for Vec (src/src/d1/std.rs): position lookup,
then copy the element. -/
def Vec1.val_at {T : Type} (v : List T) (i : Index 1) : Option T :=
  copied (v.get? (i 0))

/-- FunVec at dimension 1 for a fixed array (src/src/d1/std.rs): position
lookup, then copy the element. -/
def Arr1.val_at {T : Type} (v : List T) (i : Index 1) : Option T :=
  copied (v.get? (i 0))

/-- FunVecRef at dimension 1 for Vec (src/src/d1/std.rs): position lookup. -/
def Vec1.ref_at {T : Type} (v : List T) (i : Index 1) : Option T :=
  v.get? (i 0)

/-- FunVecRef at dimension 1 for a fixed array (src/src/d1/std.rs). -/
def Arr1.ref_at {T : Type} (v : List T) (i : Index 1) : Option T :=
  v.get? (i 0)

/-- FunVec for HashMap at any dimension (src/src/d_any/std.rs): rebuild the
key from the canonical coordinate, look it up, copy the value. -/
def HashMap.val_at {d : Nat} {K T : Type} [DecidableEq K]
    (from_index : Index d → K) (m : HashMap K T) (i : Index d) : Option T :=
  copied (m.get (from_index i))

/-- FunVecRef for HashMap at any dimension (src/src/d_any/std.rs). -/
def HashMap.ref_at {d : Nat} {K T : Type} [DecidableEq K]
    (from_index : Index d → K) (m : HashMap K T) (i : Index d) : Option T :=
  m.get (from_index i)

/-- FunVec for BTreeMap at any dimension (src/src/d_any/std.rs). -/
def BTreeMap.val_at {d : Nat} {K T : Type} [DecidableEq K]
    (from_index : Index d → K) (m : BTreeMap K T) (i : Index d) : Option T :=
  copied (m.get (from_index i))

/-- FunVecRef for BTreeMap at any dimension (src/src/d_any/std.rs). -/
def BTreeMap.ref_at {d : Nat} {K T : Type} [DecidableEq K]
    (from_index : Index d → K) (m : BTreeMap K T) (i : Index d) : Option T :=
  m.get (from_index i)

/-- The constant source (src/src/scalar_as_vec.rs): a wrapped value. -/
structure ScalarAsVec (T : Type) where
  val : T

/-- The empty source (src/src/empty_vec.rs): zero-sized marker. -/
structure EmptyVec (T : Type) where
  ph : Unit

/-- FunVec for ScalarAsVec at any dimension (src/src/d_any/scalars.rs):
ignores the coordinate, always present. -/
def ScalarAsVec.val_at {T : Type} (d : Nat) (s : ScalarAsVec T) (_ : Index d) :
    Option T :=
  some s.val

/-- FunVecRef for ScalarAsVec at any dimension (src/src/d_any/scalars.rs). -/
def ScalarAsVec.ref_at {T : Type} (d : Nat) (s : ScalarAsVec T) (_ : Index d) :
    Option T :=
  some s.val

/-- FunVec for EmptyVec at any dimension (src/src/d_any/scalars.rs):
ignores the coordinate, always absent. -/
def EmptyVec.val_at {T : Type} (d : Nat) (_ : EmptyVec T) (_ : Index d) :
    Option T :=
  none

/-- FunVecRef for EmptyVec at any dimension (src/src/d_any/scalars.rs). -/
def EmptyVec.ref_at {T : Type} (d : Nat) (_ : EmptyVec T) (_ : Index d) :
    Option T :=
  none

/-- FunVec at dimension 3 for Vec of 2-D sub-sources (src/src/d3/std.rs):
split the coordinate, outer position lookup, then delegate the rest. -/
def Vec3.val_at {S T : Type} (sub : S → Index 2 → Option T)
    (v : List S) (i : Index 3) : Option T :=
  (v.get? (i 0)).bind fun x => sub x ![i 1, i 2]

/-- FunVec at dimension 3 for a fixed array of 2-D sub-sources
(src/src/d3/std.rs). -/
def Arr3.val_at {S T : Type} (sub : S → Index 2 → Option T)
    (v : List S) (i : Index 3) : Option T :=
  (v.get? (i 0)).bind fun x => sub x ![i 1, i 2]

/-- FunVec at dimension 3 for HashMap of 2-D sub-sources (src/src/d3/std.rs). -/
def HashMap3.val_at {S T : Type} (sub : S → Index 2 → Option T)
    (m : HashMap Nat S) (i : Index 3) : Option T :=
  (m.get (i 0)).bind fun x => sub x ![i 1, i 2]

/-- FunVec at dimension 3 for BTreeMap of 2-D sub-sources (src/src/d3/std.rs). -/
def BTreeMap3.val_at {S T : Type} (sub : S → Index 2 → Option T)
    (m : BTreeMap Nat S) (i : Index 3) : Option T :=
  (m.get (i 0)).bind fun x => sub x ![i 1, i 2]

/-- FunVec at dimension 2 for IndexMap of 1-D sub-sources
(src/src/d2/indexmap.rs): outer key lookup, then delegate the second
component through the usize index conversion. -/
def IndexMap2.val_at {S T : Type} (sub : S → Index 1 → Option T)
    (m : IndexMap Nat S) (i : Index 2) : Option T :=
  (m.get (i 0)).bind fun x => sub x (intoIndexUsize (i 1))

/-- Modelled from the spec: the FunVec implementation at dimension 2 for Vec
of 1-D sub-sources (module d2/std.rs) is not present under src; only the
crate docs and tests refer to it.  Following spec section 4.4, recursive
composition splits the coordinate, looks up the first component in the outer
vector, and if present delegates the remaining component to the 1-D
sub-source, short-circuiting on outer absence. -/
def Vec2.val_at {S T : Type} (sub : S → Index 1 → Option T)
    (v : List S) (i : Index 2) : Option T :=
  (v.get? (i 0)).bind fun x => sub x ![i 1]

/-- The value query iterator (src/src/iter_over_val.rs): a borrowed source
together with the index iterator, whose pending items are modelled as a
list. -/
structure IterOverValues (V : Type) (T : Type) (I : Type) where
  value : V
  indices_iter : List I

/-- One pull of the value iterator (src/src/iter_over_val.rs): take the next
index if any and map the source's value lookup over it. -/
def IterOverValues.next {V T I : Type} (f : V → I → Option T)
    (it : IterOverValues V T I) : Option (Option T) × IterOverValues V T I :=
  match it.indices_iter with
  | [] => (none, it)
  | i :: rest => (some (f it.value i), ⟨it.value, rest⟩)

/-- Run the value iterator by repeated pulls, collecting every yielded item,
bounded by the given amount of fuel. -/
def IterOverValues.runFuel {V T I : Type} (f : V → I → Option T) :
    IterOverValues V T I → Nat → List (Option T)
  | _, 0 => []
  | it, Nat.succ n =>
    match IterOverValues.next f it with
    | (none, _) => []
    | (some o, it2) => o :: IterOverValues.runFuel f it2 n

/-- The iterator state after a number of pulls of the value iterator. -/
def IterOverValues.stepN {V T I : Type} (f : V → I → Option T) :
    IterOverValues V T I → Nat → IterOverValues V T I
  | it, 0 => it
  | it, Nat.succ n => IterOverValues.stepN f (IterOverValues.next f it).2 n

/-- The reference query iterator (src/src/iter_over_ref.rs). -/
structure IterOverRefs (V : Type) (T : Type) (I : Type) where
  value : V
  indices_iter : List I

/-- One pull of the reference iterator (src/src/iter_over_ref.rs): take the
next index if any and map the source's reference lookup over it. -/
def IterOverRefs.next {V T I : Type} (r : V → I → Option T)
    (it : IterOverRefs V T I) : Option (Option T) × IterOverRefs V T I :=
  match it.indices_iter with
  | [] => (none, it)
  | i :: rest => (some (r it.value i), ⟨it.value, rest⟩)

/-- Run the reference iterator by repeated pulls, collecting every yielded
item, bounded by the given amount of fuel. -/
def IterOverRefs.runFuel {V T I : Type} (r : V → I → Option T) :
    IterOverRefs V T I → Nat → List (Option T)
  | _, 0 => []
  | it, Nat.succ n =>
    match IterOverRefs.next r it with
    | (none, _) => []
    | (some o, it2) => o :: IterOverRefs.runFuel r it2 n

/-- The iterator state after a number of pulls of the reference iterator. -/
def IterOverRefs.stepN {V T I : Type} (r : V → I → Option T) :
    IterOverRefs V T I → Nat → IterOverRefs V T I
  | it, 0 => it
  | it, Nat.succ n => IterOverRefs.stepN r (IterOverRefs.next r it).2 n

/-- Absence characterization of the association-list lookup: the first
matching entry is missing exactly when the key is not among the keys. -/
theorem assoc_find_none {K T : Type} [DecidableEq K] (l : List (K × T)) (k : K) :
    ((l.find? fun e => decide (e.1 = k)).map Prod.snd = none) ↔
      k ∉ l.map Prod.fst := by
  induction l with
  | nil => simp
  | cons e rest ih =>
    by_cases h : e.1 = k
    · simp [List.find?_cons, h]
    · simp only [List.find?_cons, decide_eq_true_eq] at *
      simp [h, ih, Ne.symm h]

/-- Presence characterization of the association-list lookup under unique
keys: a stored entry is found with its stored value. -/
theorem assoc_find_mem {K T : Type} [DecidableEq K] (l : List (K × T)) (k : K)
    (t : T) (hnd : (l.map Prod.fst).Nodup) (hmem : (k, t) ∈ l) :
    (l.find? fun e => decide (e.1 = k)).map Prod.snd = some t := by
  induction l with
  | nil => cases hmem
  | cons e rest ih =>
    rcases List.mem_cons.mp hmem with heq | hrest
    · subst heq
      simp [List.find?_cons]
    · have hk : k ∈ rest.map Prod.fst :=
        List.mem_map.mpr ⟨(k, t), hrest, rfl⟩
      have hne : e.1 ≠ k := by
        intro h
        exact (List.nodup_cons.mp hnd).1 (h ▸ hk)
      have := ih (List.nodup_cons.mp hnd).2 hrest
      simpa [List.find?_cons, hne] using this

/-- C5: For every value v, the constant source ScalarAsVec v answers every
coordinate in every dimension, including dimensions 1 through 4 and
arbitrarily large coordinates, with some v, for both the value and the
reference lookup. -/
theorem claim5_scalar_as_vec_totality {T : Type} (d : Nat) (s : ScalarAsVec T)
    (i : Index d) :
    ScalarAsVec.val_at d s i = some s.val ∧
      ScalarAsVec.ref_at d s i = some s.val :=
  ⟨rfl, rfl⟩

/-- C6: For every element type, the empty source answers every coordinate in
every dimension, including dimensions 1 through 4, with none, for both the
value and the reference lookup; absence is its Option result, the lookups
being total functions with no other outcome. -/
theorem claim6_empty_vec_totality {T : Type} (d : Nat) (e : EmptyVec T)
    (i : Index d) :
    EmptyVec.val_at d e i = none ∧ EmptyVec.ref_at d e i = none :=
  ⟨rfl, rfl⟩

/-- C7: The index-shape conversions are total functions, and from_index
inverts into_index: the bare integer at dimension 1, the tuples at
dimensions 2, 3 and 4 all round-trip through the canonical array, and the
array-to-array conversions are the identity at every dimension. -/
theorem claim7_index_conversion_roundtrip :
    (∀ n : Nat, fromIndexUsize (intoIndexUsize n) = n) ∧
    (∀ p : Nat × Nat, fromIndexPair (intoIndexPair p) = p) ∧
    (∀ p : Nat × Nat × Nat, fromIndexTriple (intoIndexTriple p) = p) ∧
    (∀ p : Nat × Nat × Nat × Nat, fromIndexQuad (intoIndexQuad p) = p) ∧
    (∀ (d : Nat) (a : Index d),
      intoIndexArray a = a ∧ fromIndexArray a = a ∧
        fromIndexArray (intoIndexArray a) = a) := by
  refine ⟨fun n => rfl, fun p => ?_, fun p => ?_, fun p => ?_,
    fun d a => ⟨rfl, rfl, rfl⟩⟩
  · simp [fromIndexPair, intoIndexPair]
  · simp [fromIndexTriple, intoIndexTriple]
  · simp [fromIndexQuad, intoIndexQuad]

/-- C10: For every container implementing both contracts at the same
dimension, the value lookup agrees with the reference lookup followed by
dereferencing and copying the referenced value: some maps to some of the
copied value and none to none. -/
theorem claim10_val_ref_agreement {T K : Type} [DecidableEq K] (v : List T)
    (j : Index 1) (d : Nat) (F : Index d → K) (m : HashMap K T)
    (b : BTreeMap K T) (s : ScalarAsVec T) (e : EmptyVec T) (i : Index d) :
    (Vec1.val_at v j = match Vec1.ref_at v j with
      | none => none
      | some t => some t) ∧
    (Arr1.val_at v j = match Arr1.ref_at v j with
      | none => none
      | some t => some t) ∧
    (HashMap.val_at F m i = match HashMap.ref_at F m i with
      | none => none
      | some t => some t) ∧
    (BTreeMap.val_at F b i = match BTreeMap.ref_at F b i with
      | none => none
      | some t => some t) ∧
    (ScalarAsVec.val_at d s i = match ScalarAsVec.ref_at d s i with
      | none => none
      | some t => some t) ∧
    (EmptyVec.val_at d e i = match EmptyVec.ref_at d e i with
      | none => none
      | some t => some t) := by
  refine ⟨?_, ?_, ?_, ?_, rfl, ?_⟩
  · unfold Vec1.val_at Vec1.ref_at copied
    cases v.get? (j 0) <;> rfl
  · unfold Arr1.val_at Arr1.ref_at copied
    cases v.get? (j 0) <;> rfl
  · unfold HashMap.val_at HashMap.ref_at copied
    cases m.get (F i) <;> rfl
  · unfold BTreeMap.val_at BTreeMap.ref_at copied
    cases b.get (F i) <;> rfl
  · unfold EmptyVec.val_at EmptyVec.ref_at
    rfl

/-- C1: For every dense 1-D source (Vec or fixed array) and index i, the
value and reference lookups return some of the element stored at position i
when i is below the length and none otherwise; for every map source keyed
by a coordinate-convertible key, they return some of the stored value
exactly when the key rebuilt from the coordinate is a key of the map and
none otherwise.  The lookups are total functions: no panic, no default. -/
theorem claim1_presence_absence {T K : Type} [DecidableEq K] :
    (∀ (v : List T) (i : Index 1),
      (∀ h : i 0 < v.length,
        Vec1.val_at v i = some (v.get ⟨i 0, h⟩) ∧
          Vec1.ref_at v i = some (v.get ⟨i 0, h⟩) ∧
          Arr1.val_at v i = some (v.get ⟨i 0, h⟩) ∧
          Arr1.ref_at v i = some (v.get ⟨i 0, h⟩)) ∧
      (v.length ≤ i 0 →
        Vec1.val_at v i = none ∧ Vec1.ref_at v i = none ∧
          Arr1.val_at v i = none ∧ Arr1.ref_at v i = none)) ∧
    (∀ (d : Nat) (F : Index d → K) (m : HashMap K T) (i : Index d),
      (∀ t : T, (m.entries.map Prod.fst).Nodup → (F i, t) ∈ m.entries →
        HashMap.val_at F m i = some t ∧ HashMap.ref_at F m i = some t) ∧
      (F i ∉ m.entries.map Prod.fst →
        HashMap.val_at F m i = none ∧ HashMap.ref_at F m i = none)) ∧
    (∀ (d : Nat) (F : Index d → K) (b : BTreeMap K T) (i : Index d),
      (∀ t : T, (b.entries.map Prod.fst).Nodup → (F i, t) ∈ b.entries →
        BTreeMap.val_at F b i = some t ∧ BTreeMap.ref_at F b i = some t) ∧
      (F i ∉ b.entries.map Prod.fst →
        BTreeMap.val_at F b i = none ∧ BTreeMap.ref_at F b i = none)) := by
  have hcopied : ∀ o : Option T, copied o = o := by
    intro o
    cases o <;> rfl
  refine ⟨fun v i => ⟨fun h => ?_, fun h => ?_⟩,
    fun d F m i => ⟨fun t hnd hmem => ?_, fun h => ?_⟩,
    fun d F b i => ⟨fun t hnd hmem => ?_, fun h => ?_⟩⟩
  · have hg : v.get? (i 0) = some (v.get ⟨i 0, h⟩) := List.get?_eq_get h
    exact ⟨by simp [Vec1.val_at, hg, hcopied], by simp [Vec1.ref_at, hg],
      by simp [Arr1.val_at, hg, hcopied], by simp [Arr1.ref_at, hg]⟩
  · have hg : v.get? (i 0) = none := List.get?_eq_none.mpr h
    refine ⟨?_, hg, ?_, hg⟩
    · show copied (v.get? (i 0)) = none
      rw [hg]
      exact hcopied none
    · show copied (v.get? (i 0)) = none
      rw [hg]
      exact hcopied none
  · have hg := assoc_find_mem m.entries (F i) t hnd hmem
    constructor
    · simpa [HashMap.val_at, HashMap.get, hcopied] using hg
    · simpa [HashMap.ref_at, HashMap.get] using hg
  · have hg := (assoc_find_none m.entries (F i)).mpr h
    constructor
    · simpa [HashMap.val_at, HashMap.get, hcopied] using hg
    · simpa [HashMap.ref_at, HashMap.get] using hg
  · have hg := assoc_find_mem b.entries (F i) t hnd hmem
    constructor
    · simpa [BTreeMap.val_at, BTreeMap.get, hcopied] using hg
    · simpa [BTreeMap.ref_at, BTreeMap.get] using hg
  · have hg := (assoc_find_none b.entries (F i)).mpr h
    constructor
    · simpa [BTreeMap.val_at, BTreeMap.get, hcopied] using hg
    · simpa [BTreeMap.ref_at, BTreeMap.get] using hg

/-- Witness for C1 at concrete inputs: the dense source holding 10, 11, 12,
13 hits position 3 and misses position 4; the map holding 1 to 10 and 2 to
20 hits key 1 and misses key 0. -/
theorem claim1_presence_absence_witness :
    Vec1.val_at [10, 11, 12, 13] ![3] = some (13 : Int) ∧
    Vec1.val_at [10, 11, 12, 13] ![4] = (none : Option Int) ∧
    HashMap.val_at fromIndexUsize ⟨[(1, 10), (2, 20)]⟩ ![1] = some (10 : Int) ∧
    HashMap.val_at fromIndexUsize ⟨[(1, 10), (2, 20)]⟩ ![0] =
      (none : Option Int) := by
  have h := claim1_presence_absence (T := Int) (K := Nat)
  refine ⟨?_, ?_, ?_, ?_⟩
  · exact ((h.1 [10, 11, 12, 13] ![3]).1 (by decide)).1.trans (by decide)
  · exact ((h.1 [10, 11, 12, 13] ![4]).2 (by decide)).1
  · exact ((h.2.1 1 fromIndexUsize ⟨[(1, 10), (2, 20)]⟩ ![1]).1 10
      (by decide) (by decide)).1
  · exact ((h.2.1 1 fromIndexUsize ⟨[(1, 10), (2, 20)]⟩ ![0]).2 (by decide)).1

/-- C4: The 2-D source built as a Vec of usize-keyed maps whose index 0
holds the map sending 7 to 20 satisfies the 2-D value contract at the three
scenario coordinates: inner hit, inner miss, outer miss. -/
theorem claim4_vec_of_maps_scenario :
    Vec2.val_at (fun m j => HashMap.val_at fromIndexUsize m j)
        [(⟨[(7, 20)]⟩ : HashMap Nat Int)] ![0, 7] = some 20 ∧
    Vec2.val_at (fun m j => HashMap.val_at fromIndexUsize m j)
        [(⟨[(7, 20)]⟩ : HashMap Nat Int)] ![0, 8] = none ∧
    Vec2.val_at (fun m j => HashMap.val_at fromIndexUsize m j)
        [(⟨[(7, 20)]⟩ : HashMap Nat Int)] ![1, 7] = none := by
  refine ⟨?_, ?_, ?_⟩ <;> decide

/-- Running the value iterator with fuel equal to the number of pending
indices yields exactly the value lookup mapped over them in order. -/
theorem iterValues_runFuel_eq_map {V T I : Type} (f : V → I → Option T)
    (v : V) (s : List I) :
    IterOverValues.runFuel f ⟨v, s⟩ s.length = s.map (f v) := by
  induction s with
  | nil => rfl
  | cons i rest ih =>
    simp only [List.length_cons, IterOverValues.runFuel, IterOverValues.next,
      List.map_cons]
    exact congrArg _ ih

/-- Running the reference iterator with fuel equal to the number of pending
indices yields exactly the reference lookup mapped over them in order. -/
theorem iterRefs_runFuel_eq_map {V T I : Type} (r : V → I → Option T)
    (v : V) (s : List I) :
    IterOverRefs.runFuel r ⟨v, s⟩ s.length = s.map (r v) := by
  induction s with
  | nil => rfl
  | cons i rest ih =>
    simp only [List.length_cons, IterOverRefs.runFuel, IterOverRefs.next,
      List.map_cons]
    exact congrArg _ ih

/-- C2: The value iterator over an index sequence yields, in order, exactly
the value lookup applied to each coordinate of the sequence, one output per
input; its n-th output is the lookup at the n-th coordinate; and each pull
on a nonempty sequence performs exactly the one lookup at the consumed head
coordinate.  The reference iterator does the same with the reference
lookup. -/
theorem claim2_iter_over_order {V T I : Type} (f r : V → I → Option T)
    (v : V) (s : List I) :
    IterOverValues.runFuel f ⟨v, s⟩ s.length = s.map (f v) ∧
    (IterOverValues.runFuel f ⟨v, s⟩ s.length).length = s.length ∧
    (∀ n : Nat,
      (IterOverValues.runFuel f ⟨v, s⟩ s.length).get? n =
        (s.get? n).map (f v)) ∧
    (∀ (i : I) (rest : List I),
      IterOverValues.next f ⟨v, i :: rest⟩ = (some (f v i), ⟨v, rest⟩)) ∧
    IterOverRefs.runFuel r ⟨v, s⟩ s.length = s.map (r v) ∧
    (IterOverRefs.runFuel r ⟨v, s⟩ s.length).length = s.length ∧
    (∀ n : Nat,
      (IterOverRefs.runFuel r ⟨v, s⟩ s.length).get? n =
        (s.get? n).map (r v)) ∧
    (∀ (i : I) (rest : List I),
      IterOverRefs.next r ⟨v, i :: rest⟩ = (some (r v i), ⟨v, rest⟩)) := by
  have hv := iterValues_runFuel_eq_map f v s
  have hr := iterRefs_runFuel_eq_map r v s
  refine ⟨hv, by rw [hv, List.length_map], fun n => ?_, fun i rest => rfl,
    hr, by rw [hr, List.length_map], fun n => ?_, fun i rest => rfl⟩
  · rw [hv, List.get?_map]
  · rw [hr, List.get?_map]

/-- C3: Every 3-D source built by nesting 2-D sub-sources in a Vec, fixed
array, HashMap or BTreeMap, and the 2-D IndexMap of 1-D sub-sources,
answers a coordinate by looking up the first component in the outer
container and, if present, delegating the remaining components to the
retrieved sub-source; when the outer lookup fails the result is none and
the sub-source lookup function is never consulted. -/
theorem claim3_recursive_composition {S R T : Type}
    (f g : S → Index 2 → Option T) (p q : R → Index 1 → Option T)
    (v : List S) (m : HashMap Nat S) (b : BTreeMap Nat S)
    (x : IndexMap Nat R) (i : Index 3) (j : Index 2) :
    (Vec3.val_at f v i = match v.get? (i 0) with
      | none => none
      | some s => f s ![i 1, i 2]) ∧
    (v.get? (i 0) = none →
      Vec3.val_at f v i = none ∧ Vec3.val_at f v i = Vec3.val_at g v i) ∧
    (Arr3.val_at f v i = match v.get? (i 0) with
      | none => none
      | some s => f s ![i 1, i 2]) ∧
    (v.get? (i 0) = none →
      Arr3.val_at f v i = none ∧ Arr3.val_at f v i = Arr3.val_at g v i) ∧
    (HashMap3.val_at f m i = match m.get (i 0) with
      | none => none
      | some s => f s ![i 1, i 2]) ∧
    (m.get (i 0) = none →
      HashMap3.val_at f m i = none ∧
        HashMap3.val_at f m i = HashMap3.val_at g m i) ∧
    (BTreeMap3.val_at f b i = match b.get (i 0) with
      | none => none
      | some s => f s ![i 1, i 2]) ∧
    (b.get (i 0) = none →
      BTreeMap3.val_at f b i = none ∧
        BTreeMap3.val_at f b i = BTreeMap3.val_at g b i) ∧
    (IndexMap2.val_at p x j = match x.get (j 0) with
      | none => none
      | some s => p s (intoIndexUsize (j 1))) ∧
    (x.get (j 0) = none →
      IndexMap2.val_at p x j = none ∧
        IndexMap2.val_at p x j = IndexMap2.val_at q x j) := by
  refine ⟨?_, fun h => ?_, ?_, fun h => ?_, ?_, fun h => ?_, ?_, fun h => ?_,
    ?_, fun h => ?_⟩
  · unfold Vec3.val_at
    cases v.get? (i 0) <;> rfl
  · unfold Vec3.val_at
    rw [h]
    exact ⟨rfl, rfl⟩
  · unfold Arr3.val_at
    cases v.get? (i 0) <;> rfl
  · unfold Arr3.val_at
    rw [h]
    exact ⟨rfl, rfl⟩
  · unfold HashMap3.val_at
    cases m.get (i 0) <;> rfl
  · unfold HashMap3.val_at
    rw [h]
    exact ⟨rfl, rfl⟩
  · unfold BTreeMap3.val_at
    cases b.get (i 0) <;> rfl
  · unfold BTreeMap3.val_at
    rw [h]
    exact ⟨rfl, rfl⟩
  · unfold IndexMap2.val_at
    cases x.get (j 0) <;> rfl
  · unfold IndexMap2.val_at
    rw [h]
    exact ⟨rfl, rfl⟩

/-- Witness for C3 at concrete inputs: on empty outer containers the outer
lookup misses, the composed lookup answers none, and two sub-source lookup
functions disagreeing everywhere give the same composed result, showing the
sub-source is never consulted. -/
theorem claim3_recursive_composition_witness :
    Vec3.val_at (fun (_ : Nat) (_ : Index 2) => some (1 : Nat)) [] ![0, 0, 0] =
        none ∧
    Vec3.val_at (fun (_ : Nat) (_ : Index 2) => some (1 : Nat)) [] ![0, 0, 0] =
      Vec3.val_at (fun (_ : Nat) (_ : Index 2) => some (2 : Nat)) []
        ![0, 0, 0] ∧
    IndexMap2.val_at (fun (_ : Nat) (_ : Index 1) => some (1 : Nat)) ⟨[]⟩
        ![0, 0] = none ∧
    IndexMap2.val_at (fun (_ : Nat) (_ : Index 1) => some (1 : Nat)) ⟨[]⟩
        ![0, 0] =
      IndexMap2.val_at (fun (_ : Nat) (_ : Index 1) => some (2 : Nat)) ⟨[]⟩
        ![0, 0] := by
  have h := claim3_recursive_composition
    (fun (_ : Nat) (_ : Index 2) => some (1 : Nat))
    (fun (_ : Nat) (_ : Index 2) => some (2 : Nat))
    (fun (_ : Nat) (_ : Index 1) => some (1 : Nat))
    (fun (_ : Nat) (_ : Index 1) => some (2 : Nat))
    [] ⟨[]⟩ ⟨[]⟩ ⟨[]⟩ ![0, 0, 0] ![0, 0]
  exact ⟨(h.2.1 rfl).1, (h.2.1 rfl).2,
    (h.2.2.2.2.2.2.2.2.2 rfl).1, (h.2.2.2.2.2.2.2.2.2 rfl).2⟩

/-- The state of the value iterator is unchanged by further pulls once the
pending index sequence is empty. -/
theorem iterValues_stepN_of_nil {V T I : Type} (f : V → I → Option T) :
    ∀ (n : Nat) (it : IterOverValues V T I), it.indices_iter = [] →
      IterOverValues.stepN f it n = it := by
  intro n
  induction n with
  | zero => intro it h; rfl
  | succ n ih =>
    intro it h
    obtain ⟨w, s⟩ := it
    cases h
    exact ih _ rfl

/-- The state of the reference iterator is unchanged by further pulls once
the pending index sequence is empty. -/
theorem iterRefs_stepN_of_nil {V T I : Type} (r : V → I → Option T) :
    ∀ (n : Nat) (it : IterOverRefs V T I), it.indices_iter = [] →
      IterOverRefs.stepN r it n = it := by
  intro n
  induction n with
  | zero => intro it h; rfl
  | succ n ih =>
    intro it h
    obtain ⟨w, s⟩ := it
    cases h
    exact ih _ rfl

/-- A pull of the value iterator yields nothing exactly when the pending
index sequence is empty. -/
theorem iterValues_next_none_iff {V T I : Type} (f : V → I → Option T)
    (it : IterOverValues V T I) :
    (IterOverValues.next f it).1 = none ↔ it.indices_iter = [] := by
  obtain ⟨w, s⟩ := it
  cases s <;> simp [IterOverValues.next]

/-- A pull of the reference iterator yields nothing exactly when the pending
index sequence is empty. -/
theorem iterRefs_next_none_iff {V T I : Type} (r : V → I → Option T)
    (it : IterOverRefs V T I) :
    (IterOverRefs.next r it).1 = none ↔ it.indices_iter = [] := by
  obtain ⟨w, s⟩ := it
  cases s <;> simp [IterOverRefs.next]

/-- C8: Once a pull of the query iterator finds the index sequence empty it
yields nothing and the iterator is terminally exhausted: after any number of
further pulls the next pull still yields nothing.  While a coordinate is
available, the pull performs exactly the one lookup at the consumed
coordinate and emits its Option result.  This holds for the value and the
reference iterator alike. -/
theorem claim8_exhaustion_terminal {V T I : Type} (f r : V → I → Option T)
    (it : IterOverValues V T I) (jt : IterOverRefs V T I) :
    ((IterOverValues.next f it).1 = none →
      ∀ n : Nat, (IterOverValues.next f
        (IterOverValues.stepN f (IterOverValues.next f it).2 n)).1 = none) ∧
    (∀ (i : I) (rest : List I), it.indices_iter = i :: rest →
      IterOverValues.next f it = (some (f it.value i), ⟨it.value, rest⟩)) ∧
    ((IterOverRefs.next r jt).1 = none →
      ∀ n : Nat, (IterOverRefs.next r
        (IterOverRefs.stepN r (IterOverRefs.next r jt).2 n)).1 = none) ∧
    (∀ (i : I) (rest : List I), jt.indices_iter = i :: rest →
      IterOverRefs.next r jt = (some (r jt.value i), ⟨jt.value, rest⟩)) := by
  refine ⟨fun h n => ?_, fun i rest h => ?_, fun h n => ?_,
    fun i rest h => ?_⟩
  · have hnil := (iterValues_next_none_iff f it).mp h
    obtain ⟨w, s⟩ := it
    cases hnil
    rw [iterValues_stepN_of_nil f n _ rfl]
    exact h
  · obtain ⟨w, s⟩ := it
    cases h
    rfl
  · have hnil := (iterRefs_next_none_iff r jt).mp h
    obtain ⟨w, s⟩ := jt
    cases hnil
    rw [iterRefs_stepN_of_nil r n _ rfl]
    exact h
  · obtain ⟨w, s⟩ := jt
    cases h
    rfl

/-- Witness for C8 at concrete inputs: the iterator bound to source 0 with
no pending indices stays exhausted after two further pulls, and the iterator
with pending index 5 pulls exactly the lookup at 5 and consumes it. -/
theorem claim8_exhaustion_terminal_witness :
    (IterOverValues.next (fun (_ : Nat) (_ : Nat) => (none : Option Nat))
      (IterOverValues.stepN (fun (_ : Nat) (_ : Nat) => (none : Option Nat))
        (IterOverValues.next (fun (_ : Nat) (_ : Nat) => (none : Option Nat))
          ⟨0, []⟩).2 2)).1 = none ∧
    IterOverValues.next (fun (_ : Nat) (_ : Nat) => (none : Option Nat))
        ⟨0, [5]⟩ =
      (some ((fun (_ : Nat) (_ : Nat) => (none : Option Nat)) 0 5),
        ⟨0, []⟩) := by
  have h := claim8_exhaustion_terminal
    (fun (_ : Nat) (_ : Nat) => (none : Option Nat))
    (fun (_ : Nat) (_ : Nat) => (none : Option Nat))
    (⟨0, []⟩ : IterOverValues Nat Nat Nat)
    (⟨0, []⟩ : IterOverRefs Nat Nat Nat)
  have h2 := claim8_exhaustion_terminal
    (fun (_ : Nat) (_ : Nat) => (none : Option Nat))
    (fun (_ : Nat) (_ : Nat) => (none : Option Nat))
    (⟨0, [5]⟩ : IterOverValues Nat Nat Nat)
    (⟨0, []⟩ : IterOverRefs Nat Nat Nat)
  exact ⟨h.1 rfl 2, h2.2.1 5 [] rfl⟩

/-- The bound source of the value iterator is unchanged by any number of
pulls. -/
theorem iterValues_stepN_value {V T I : Type} (f : V → I → Option T) :
    ∀ (n : Nat) (it : IterOverValues V T I),
      (IterOverValues.stepN f it n).value = it.value := by
  intro n
  induction n with
  | zero => intro it; rfl
  | succ n ih =>
    intro it
    have h2 : ((IterOverValues.next f it).2).value = it.value := by
      obtain ⟨w, s⟩ := it
      cases s <;> rfl
    exact (ih _).trans h2

/-- The bound source of the reference iterator is unchanged by any number of
pulls. -/
theorem iterRefs_stepN_value {V T I : Type} (r : V → I → Option T) :
    ∀ (n : Nat) (it : IterOverRefs V T I),
      (IterOverRefs.stepN r it n).value = it.value := by
  intro n
  induction n with
  | zero => intro it; rfl
  | succ n ih =>
    intro it
    have h2 : ((IterOverRefs.next r it).2).value = it.value := by
      obtain ⟨w, s⟩ := it
      cases s <;> rfl
    exact (ih _).trans h2

/-- C9: Queries have no side effect on the source: any number of iterator
pulls leaves the bound source unchanged, and therefore the value or
reference lookup at a fixed coordinate of the source returns equal results
no matter how many pulls were performed in between. -/
theorem claim9_queries_no_side_effects {V T I : Type}
    (f r : V → I → Option T) (it : IterOverValues V T I)
    (jt : IterOverRefs V T I) (n k : Nat) (c : I) :
    (IterOverValues.stepN f it n).value = it.value ∧
    f (IterOverValues.stepN f it n).value c =
      f (IterOverValues.stepN f it k).value c ∧
    (IterOverRefs.stepN r jt n).value = jt.value ∧
    r (IterOverRefs.stepN r jt n).value c =
      r (IterOverRefs.stepN r jt k).value c := by
  refine ⟨iterValues_stepN_value f n it, ?_, iterRefs_stepN_value r n jt, ?_⟩
  · rw [iterValues_stepN_value f n it, iterValues_stepN_value f k it]
  · rw [iterRefs_stepN_value r n jt, iterRefs_stepN_value r k jt]

end OrxFunvec
